import Mathlib

/-
  Verification of the order/customer management backend's
  query-sanitization, filtering, visibility and pagination pipeline.

  The definitions below are shallow embeddings of the TypeScript sources:
    - sanitizeSearch            (src/backend/src/middlewares/sanitize/sanitizeSearch.ts)
    - sanitizeQueryParams       (src/unnamed/part_003, first file)
    - sanitizeAggregationFilters (src/backend/src/middlewares/sanitize/sanitizeAggregationParams.ts)
    - cleanHtml                 (src/backend/src/middlewares/sanitize/sanitizeHtml.ts)
    - sanitizeOrder             (src/backend/src/middlewares/sanitize/sanitizeOrder.ts)
    - the orders controller     (src/unnamed/part_002, first file)
    - the customers controller  (src/unnamed/part_000)
  JavaScript machine numbers are modelled as `Int`/`Nat`; `undefined`/`NaN`
  appear as `Option`; thrown errors as `Except`.
-/

set_option linter.unusedVariables false

namespace BadServer

/-! ## JavaScript numeric helpers -/

/-- `x || d` applied to the result of `parseInt`: a failed parse (`NaN`,
modelled as `none`) and `0` are both falsy, so both fall back to `d`. -/
def jsOrElse (x : Option Int) (d : Int) : Int :=
  match x with
  | none => d
  | some 0 => d
  | some n => n

/-- `Math.max(1, parseInt(req.query.page as string) || 1)` -/
def pageEff (p : Option Int) : Int := max 1 (jsOrElse p 1)

/-- `Math.min(10, parseInt(req.query.limit as string) || 10)` -/
def limitEff (l : Option Int) : Int := min 10 (jsOrElse l 10)

/-- `Math.ceil(a / b)` on integers (`b ≠ 0`): the rational ceiling. -/
def ceilQ (a b : Int) : Int :=
  if 0 ≤ b then -((-a).fdiv b) else -(a.fdiv (-b))

/-- One index of JavaScript `Array.prototype.slice`: negative indices count
from the end, everything is clamped to `[0, len]`. -/
def jsSliceIdx (len : Nat) (i : Int) : Nat :=
  if i < 0 then ((len : Int) + i).toNat else min i.toNat len

/-- JavaScript `xs.slice(s, e)`. -/
def jsSlice {α : Type} (xs : List α) (s e : Int) : List α :=
  let a := jsSliceIdx xs.length s
  let b := jsSliceIdx xs.length e
  (xs.drop a).take (b - a)

/-- The store-level `.skip(s).limit(l)` pair (negative arguments clamp to 0). -/
def mongoSkipLimit {α : Type} (xs : List α) (s l : Int) : List α :=
  (xs.drop s.toNat).take l.toNat

/-! ## sanitizeSearch -/

/-- The character class `[.*+?^${}()|[\]\\]` of the first `replace`. -/
def regexMeta : List Char :=
  ['.', '*', '+', '?', '^', '$', '\x7b', '\x7d', '(', ')', '|', '[', ']', '\\']

/-- `input.replace(/class/g, '\\$&')`: put a backslash in front of every
character satisfying `special`. -/
def escapeWith (special : Char → Bool) (cs : List Char) : List Char :=
  cs.flatMap (fun c => if special c then ['\\', c] else [c])

/-- `sanitizeSearch` from sanitizeSearch.ts: escape regex metacharacters,
then double every backslash, then escape both kinds of quote. -/
def sanitizeSearch (input : String) : String :=
  let s1 := escapeWith (fun c => regexMeta.contains c) input.data
  let s2 := escapeWith (fun c => c == '\\') s1
  let s3 := escapeWith (fun c => c == '\x27') s2
  let s4 := escapeWith (fun c => c == '\x22') s3
  String.mk s4

/-- A backslash escape `\c` denotes the literal character `c` exactly when
`c` is not alphanumeric (alphanumeric escapes such as `\d` are character
classes, not literals). -/
def identityEscape (c : Char) : Bool := !c.isAlphanum

/-- Interpret a regex source string that is intended to match one literal
string: backslash escapes denote their character, any bare metacharacter
means the pattern is not a literal (`none`). -/
def parseLiteralRegex : List Char → Option (List Char)
  | [] => some []
  | '\\' :: c :: rest =>
    if identityEscape c then (parseLiteralRegex rest).map (fun l => c :: l) else none
  | ['\\'] => none
  | c :: rest =>
    if regexMeta.contains c then none
    else (parseLiteralRegex rest).map (fun l => c :: l)

/-! ## JavaScript values and the two parameter sanitizers -/

/-- `s.startsWith('$')`: the first character is the operator sentinel. -/
def startsWithDollar (s : String) : Bool :=
  match s.data with
  | [] => false
  | c :: _ => c == '$'


mutual
/-- A JavaScript value as seen by the sanitizers. -/
inductive JVal where
  | str (s : String)
  | num (n : Int)
  | jsBool (b : Bool)
  | jsNull
  | obj (fields : JFields)

/-- The own enumerable entries of a JavaScript object, in insertion order. -/
inductive JFields where
  | nil
  | cons (key : String) (val : JVal) (rest : JFields)
end

def JFields.append : JFields → JFields → JFields
  | .nil, g => g
  | .cons k v r, g => .cons k v (r.append g)

/-- Property lookup (keys of a JS object are unique, so first hit wins). -/
def JFields.get? : JFields → String → Option JVal
  | .nil, _ => none
  | .cons k v r, key => if k == key then some v else r.get? key

/-- JavaScript truthiness of a value. -/
def truthy : JVal → Bool
  | .str s => s != ""
  | .num n => n != 0
  | .jsBool b => b
  | .jsNull => false
  | .obj _ => true

/-- Did the computation throw (`BadRequestError`)? -/
def isErr {ε α : Type} (x : Except ε α) : Bool :=
  match x with
  | .error _ => true
  | .ok _ => false

mutual
/-- How `sanitizeQueryParams` treats one entry's value: a string beginning
with `$` throws, any other string is passed through `sanitizeSearch`,
a (non-null) object recurses, every other scalar is copied. -/
def sqpVal : JVal → Except Unit JVal
  | .str s => if startsWithDollar s then .error () else .ok (.str (sanitizeSearch s))
  | .obj fs =>
    match sanitizeQueryParams fs with
    | .ok r => .ok (.obj r)
    | .error _ => .error ()
  | v => .ok v

/-- `sanitizeQueryParams` (part_003): iterate over the entries of the
mapping in order, rebuilding a new object.  Keys are never inspected. -/
def sanitizeQueryParams : JFields → Except Unit JFields
  | .nil => .ok .nil
  | .cons k v rest =>
    match sqpVal v, sanitizeQueryParams rest with
    | .ok v2, .ok r2 => .ok (.cons k v2 r2)
    | _, _ => .error ()
end

mutual
/-- Some string value at some depth begins with `$`. -/
def sqpBadVal : JVal → Bool
  | .str s => startsWithDollar s
  | .obj fs => sqpBadFields fs
  | _ => false

def sqpBadFields : JFields → Bool
  | .nil => false
  | .cons _ v r => sqpBadVal v || sqpBadFields r
end

mutual
/-- Some key, or some string value, at some depth begins with `$`. -/
def aggBadVal : JVal → Bool
  | .str s => startsWithDollar s
  | .obj fs => aggBadFields fs
  | _ => false

def aggBadFields : JFields → Bool
  | .nil => false
  | .cons k v r => startsWithDollar k || aggBadVal v || aggBadFields r
end

/-- The two truthiness checks `if (sanitized.$expr)` / `if (sanitized.$function)`
performed after the loop of `sanitizeAggregationFilters`. -/
def aggPost (s : JFields) : Bool :=
  (match s.get? "$expr" with | some v => truthy v | none => false) ||
  (match s.get? "$function" with | some v => truthy v | none => false)

mutual
/-- `sanitizeAggregationFilters` applied to one (object) value: iterate the
entries, then run the `$expr`/`$function` post-checks; non-objects are
returned unchanged by the top guard. -/
def aggVal : JVal → Except Unit JVal
  | .obj fs =>
    match aggLoop fs with
    | .error _ => .error ()
    | .ok s => if aggPost s then .error () else .ok (.obj s)
  | v => .ok v

/-- The entry loop of `sanitizeAggregationFilters`: a key beginning with `$`
throws, a string value beginning with `$` throws, a nested object is
sanitized recursively, every other value is copied. -/
def aggLoop : JFields → Except Unit JFields
  | .nil => .ok .nil
  | .cons k v rest =>
    if startsWithDollar k then .error ()
    else
      match (match v with
             | .str s => if startsWithDollar s then Except.error () else Except.ok (JVal.str s)
             | .obj _ => aggVal v
             | w => Except.ok w),
            aggLoop rest with
      | .ok v2, .ok r2 => .ok (.cons k v2 r2)
      | _, _ => .error ()
end

/-- `sanitizeAggregationFilters` (sanitizeAggregationParams.ts) on a mapping. -/
def sanitizeAggregationFilters (fs : JFields) : Except Unit JFields :=
  match aggLoop fs with
  | .error _ => .error ()
  | .ok s => if aggPost s then .error () else .ok s

/-- No top-level key of the mapping starts with `$`. -/
def noDollarKeys : JFields → Bool
  | .nil => true
  | .cons k _ r => !startsWithDollar k && noDollarKeys r

theorem aggLoop_ok_keys : ∀ (f s : JFields), aggLoop f = .ok s → noDollarKeys s = true
  | .nil, s, h => by
    simp [aggLoop] at h
    simp [← h, noDollarKeys]
  | .cons k v r, s, h => by
    by_cases hk : startsWithDollar k
    · simp [aggLoop, hk] at h
    · cases v with
      | str s' =>
        by_cases hs : startsWithDollar s'
        · simp [aggLoop, hk, hs] at h
        · cases hR : aggLoop r with
          | error e => simp [aggLoop, hk, hs, hR] at h
          | ok r2 =>
            simp [aggLoop, hk, hs, hR] at h
            have := aggLoop_ok_keys r r2 hR
            simp [← h, noDollarKeys, hk, this]
      | obj fs =>
        cases hV : aggVal (.obj fs) with
        | error e => simp [aggLoop, hk, hV] at h
        | ok v2 =>
          cases hR : aggLoop r with
          | error e => simp [aggLoop, hk, hV, hR] at h
          | ok r2 =>
            simp [aggLoop, hk, hV, hR] at h
            have := aggLoop_ok_keys r r2 hR
            simp [← h, noDollarKeys, hk, this]
      | num n =>
        cases hR : aggLoop r with
        | error e => simp [aggLoop, hk, hR] at h
        | ok r2 =>
          simp [aggLoop, hk, hR] at h
          have := aggLoop_ok_keys r r2 hR
          simp [← h, noDollarKeys, hk, this]
      | jsBool b =>
        cases hR : aggLoop r with
        | error e => simp [aggLoop, hk, hR] at h
        | ok r2 =>
          simp [aggLoop, hk, hR] at h
          have := aggLoop_ok_keys r r2 hR
          simp [← h, noDollarKeys, hk, this]
      | jsNull =>
        cases hR : aggLoop r with
        | error e => simp [aggLoop, hk, hR] at h
        | ok r2 =>
          simp [aggLoop, hk, hR] at h
          have := aggLoop_ok_keys r r2 hR
          simp [← h, noDollarKeys, hk, this]

theorem noDollar_get_none : ∀ (s : JFields) (key : String),
    startsWithDollar key = true → noDollarKeys s = true → s.get? key = none
  | .nil, _, _, _ => rfl
  | .cons k v r, key, hkey, h => by
    simp [noDollarKeys] at h
    have hne : k ≠ key := by
      intro hEq; subst hEq; rw [hkey] at h; simp at h
    simp [JFields.get?, hne]
    exact noDollar_get_none r key hkey h.2

theorem aggPost_of_noDollar (s : JFields) (h : noDollarKeys s = true) : aggPost s = false := by
  unfold aggPost
  rw [noDollar_get_none s "$expr" (by decide) h, noDollar_get_none s "$function" (by decide) h]
  rfl

mutual
theorem aggValObj_err (fs : JFields) : isErr (aggVal (.obj fs)) = aggBadFields fs := by
  have h := aggLoop_err fs
  unfold aggVal
  cases hE : aggLoop fs with
  | error e =>
    rw [hE] at h; simp [isErr] at h ⊢
    exact h
  | ok s =>
    rw [hE] at h; simp only [isErr] at h
    have hkeys := aggLoop_ok_keys fs s hE
    simp [isErr, aggPost_of_noDollar s hkeys, h.symm]
termination_by (sizeOf fs, 1)

theorem aggLoop_err (f : JFields) : isErr (aggLoop f) = aggBadFields f := by
  cases f with
  | nil => simp [aggLoop, aggBadFields, isErr]
  | cons k v r =>
    have hr := aggLoop_err r
    by_cases hk : startsWithDollar k
    · simp [aggLoop, hk, aggBadFields, isErr]
    · cases v with
      | str s =>
        by_cases hs : startsWithDollar s
        · simp [aggLoop, hk, hs, aggBadFields, aggBadVal, isErr]
        · cases hR : aggLoop r with
          | error e =>
            have hb : aggBadFields r = true := by rw [hR] at hr; simpa [isErr] using hr.symm
            simp [aggLoop, hk, hs, hR, aggBadFields, aggBadVal, isErr, hb]
          | ok r2 =>
            have hb : aggBadFields r = false := by rw [hR] at hr; simpa [isErr] using hr.symm
            simp [aggLoop, hk, hs, hR, aggBadFields, aggBadVal, isErr, hb]
      | obj fs =>
        have hv := aggValObj_err fs
        cases hV : aggVal (.obj fs) with
        | error e =>
          have hb : aggBadFields fs = true := by rw [hV] at hv; simpa [isErr] using hv.symm
          simp [aggLoop, hk, hV, aggBadFields, aggBadVal, isErr, hb]
        | ok v2 =>
          have hbv : aggBadFields fs = false := by rw [hV] at hv; simpa [isErr] using hv.symm
          cases hR : aggLoop r with
          | error e =>
            have hb : aggBadFields r = true := by rw [hR] at hr; simpa [isErr] using hr.symm
            simp [aggLoop, hk, hV, hR, aggBadFields, aggBadVal, isErr, hbv, hb]
          | ok r2 =>
            have hb : aggBadFields r = false := by rw [hR] at hr; simpa [isErr] using hr.symm
            simp [aggLoop, hk, hV, hR, aggBadFields, aggBadVal, isErr, hbv, hb]
      | num n =>
        cases hR : aggLoop r with
        | error e =>
          have hb : aggBadFields r = true := by rw [hR] at hr; simpa [isErr] using hr.symm
          simp [aggLoop, hk, hR, aggBadFields, aggBadVal, isErr, hb]
        | ok r2 =>
          have hb : aggBadFields r = false := by rw [hR] at hr; simpa [isErr] using hr.symm
          simp [aggLoop, hk, hR, aggBadFields, aggBadVal, isErr, hb]
      | jsBool b =>
        cases hR : aggLoop r with
        | error e =>
          have hb : aggBadFields r = true := by rw [hR] at hr; simpa [isErr] using hr.symm
          simp [aggLoop, hk, hR, aggBadFields, aggBadVal, isErr, hb]
        | ok r2 =>
          have hb : aggBadFields r = false := by rw [hR] at hr; simpa [isErr] using hr.symm
          simp [aggLoop, hk, hR, aggBadFields, aggBadVal, isErr, hb]
      | jsNull =>
        cases hR : aggLoop r with
        | error e =>
          have hb : aggBadFields r = true := by rw [hR] at hr; simpa [isErr] using hr.symm
          simp [aggLoop, hk, hR, aggBadFields, aggBadVal, isErr, hb]
        | ok r2 =>
          have hb : aggBadFields r = false := by rw [hR] at hr; simpa [isErr] using hr.symm
          simp [aggLoop, hk, hR, aggBadFields, aggBadVal, isErr, hb]
termination_by (sizeOf f, 0)
end

theorem sanitizeAggregationFilters_err (fs : JFields) :
    isErr (sanitizeAggregationFilters fs) = aggBadFields fs := by
  have h := aggLoop_err fs
  unfold sanitizeAggregationFilters
  cases hE : aggLoop fs with
  | error e => rw [hE] at h; simp [isErr] at h ⊢; exact h
  | ok s =>
    rw [hE] at h; simp only [isErr] at h
    have hkeys := aggLoop_ok_keys fs s hE
    simp [isErr, aggPost_of_noDollar s hkeys, h.symm]

mutual
theorem sqpVal_err (v : JVal) : isErr (sqpVal v) = sqpBadVal v := by
  cases v with
  | str s =>
    by_cases hs : startsWithDollar s <;> simp [sqpVal, hs, sqpBadVal, isErr]
  | obj fs =>
    have h := sanitizeQueryParams_err fs
    cases hE : sanitizeQueryParams fs with
    | error e =>
      have hb : sqpBadFields fs = true := by rw [hE] at h; simpa [isErr] using h.symm
      simp [sqpVal, hE, sqpBadVal, isErr, hb]
    | ok r =>
      have hb : sqpBadFields fs = false := by rw [hE] at h; simpa [isErr] using h.symm
      simp [sqpVal, hE, sqpBadVal, isErr, hb]
  | num n => simp [sqpVal, sqpBadVal, isErr]
  | jsBool b => simp [sqpVal, sqpBadVal, isErr]
  | jsNull => simp [sqpVal, sqpBadVal, isErr]
termination_by (sizeOf v, 1)

theorem sanitizeQueryParams_err (f : JFields) : isErr (sanitizeQueryParams f) = sqpBadFields f := by
  cases f with
  | nil => simp [sanitizeQueryParams, sqpBadFields, isErr]
  | cons k v r =>
    have hv := sqpVal_err v
    have hr := sanitizeQueryParams_err r
    cases hV : sqpVal v with
    | error e =>
      have hb : sqpBadVal v = true := by rw [hV] at hv; simpa [isErr] using hv.symm
      simp [sanitizeQueryParams, hV, sqpBadFields, isErr, hb]
    | ok v2 =>
      have hbv : sqpBadVal v = false := by rw [hV] at hv; simpa [isErr] using hv.symm
      cases hR : sanitizeQueryParams r with
      | error e =>
        have hb : sqpBadFields r = true := by rw [hR] at hr; simpa [isErr] using hr.symm
        simp [sanitizeQueryParams, hV, hR, sqpBadFields, isErr, hbv, hb]
      | ok r2 =>
        have hb : sqpBadFields r = false := by rw [hR] at hr; simpa [isErr] using hr.symm
        simp [sanitizeQueryParams, hV, hR, sqpBadFields, isErr, hbv, hb]
termination_by (sizeOf f, 0)
end

/-! ## Markup model and the Markup Sanitizer -/

mutual
/-- A node of parsed markup. -/
inductive Html where
  | text (s : String)
  | elem (tag : String) (attrs : List (String × String)) (children : HtmlList)

/-- A sequence of sibling markup nodes (a parsed document). -/
inductive HtmlList where
  | nil
  | cons (h : Html) (t : HtmlList)
end

def HtmlList.append : HtmlList → HtmlList → HtmlList
  | .nil, ys => ys
  | .cons x xs, ys => .cons x (xs.append ys)

/-- The forced anchor relation value of cleanHtml's `transformTags`. -/
def relValue : String := "noopener noreferrer nofollow"

/-- `allowedTags: ['p', 'a']` -/
def allowedTags : List String := ["p", "a"]

/-- Modelled from the spec: tags whose entire content is dropped when
disallowed (the spec's end-to-end example strips `<script>x</script>`
to nothing); other disallowed tags are stripped but keep their children. -/
def nonTextTags : List String := ["script", "style"]

/-- `allowedAttributes: { a: ['href'] }` -/
def allowedAttr (tag : String) (name : String) : Bool :=
  tag == "a" && name == "href"

def filterAttrs (tag : String) (attrs : List (String × String)) : List (String × String) :=
  attrs.filter (fun kv => allowedAttr tag kv.1)

/-- `transformTags` for `a`: spread the attributes and force `rel`. -/
def forceRel (attrs : List (String × String)) : List (String × String) :=
  attrs ++ [("rel", relValue)]

mutual
/-- Modelled from the spec: the external markup-sanitizing library under
cleanHtml's configuration — keep only the allow-listed tags `p` and `a`,
keep only `a`'s `href` attribute, force every anchor's `rel` to the safe
value; every other tag is stripped (children kept, except non-text tags,
which are removed entirely). -/
def cleanNode : Html → HtmlList
  | .text s => .cons (.text s) .nil
  | .elem tag attrs children =>
    if tag ∈ allowedTags then
      if tag = "a" then
        .cons (.elem "a" (forceRel (filterAttrs "a" attrs)) (cleanList children)) .nil
      else
        .cons (.elem tag (filterAttrs tag attrs) (cleanList children)) .nil
    else if tag ∈ nonTextTags then .nil
    else cleanList children

def cleanList : HtmlList → HtmlList
  | .nil => .nil
  | .cons h t => (cleanNode h).append (cleanList t)
end

/-- `cleanHtml` (sanitizeHtml.ts) on a parsed document. -/
def cleanHtml (d : HtmlList) : HtmlList := cleanList d

/-- The `rel` attribute of an attribute list. -/
def relOf (attrs : List (String × String)) : Option String :=
  (attrs.find? (fun kv => kv.1 == "rel")).map (fun kv => kv.2)

mutual
/-- Every tag is allow-listed and every anchor carries the forced `rel`. -/
def nodeOk : Html → Bool
  | .text _ => true
  | .elem tag attrs children =>
    decide (tag ∈ allowedTags) &&
    (decide (tag ≠ "a") || relOf attrs == some relValue) &&
    listOk children

def listOk : HtmlList → Bool
  | .nil => true
  | .cons h t => nodeOk h && listOk t
end

theorem HtmlList.append_nil : ∀ (xs : HtmlList), xs.append .nil = xs
  | .nil => rfl
  | .cons x xs => by simp [HtmlList.append, HtmlList.append_nil xs]

theorem HtmlList.append_assoc : ∀ (xs ys zs : HtmlList),
    (xs.append ys).append zs = xs.append (ys.append zs)
  | .nil, ys, zs => rfl
  | .cons x xs, ys, zs => by simp [HtmlList.append, HtmlList.append_assoc xs ys zs]

theorem listOk_append : ∀ (xs ys : HtmlList),
    listOk (xs.append ys) = (listOk xs && listOk ys)
  | .nil, ys => by simp [HtmlList.append, listOk]
  | .cons x xs, ys => by
    simp [HtmlList.append, listOk, listOk_append xs ys, Bool.and_assoc]

theorem cleanList_append : ∀ (xs ys : HtmlList),
    cleanList (xs.append ys) = (cleanList xs).append (cleanList ys)
  | .nil, ys => rfl
  | .cons x xs, ys => by
    simp [HtmlList.append, cleanList, cleanList_append xs ys, HtmlList.append_assoc]

theorem filterAttrs_idem (t : String) (a : List (String × String)) :
    filterAttrs t (filterAttrs t a) = filterAttrs t a := by
  apply List.filter_eq_self.mpr
  intro x hx
  exact (List.mem_filter.mp hx).2

theorem filterAttrs_forceRel (a : List (String × String)) :
    filterAttrs "a" (forceRel (filterAttrs "a" a)) = filterAttrs "a" a := by
  unfold forceRel
  have h1 : filterAttrs "a" [("rel", relValue)] = [] := by
    simp [filterAttrs, allowedAttr, relValue]
  have h2 := filterAttrs_idem "a" a
  calc filterAttrs "a" (filterAttrs "a" a ++ [("rel", relValue)])
      = filterAttrs "a" (filterAttrs "a" a) ++ filterAttrs "a" [("rel", relValue)] := by
        unfold filterAttrs; exact List.filter_append _ _
    _ = filterAttrs "a" a := by rw [h1, h2, List.append_nil]

theorem relFind_filterAttrs (attrs : List (String × String)) :
    (filterAttrs "a" attrs).find? (fun kv => kv.1 == "rel") = none := by
  apply List.find?_eq_none.mpr
  intro kv hkv
  have h2 := (List.mem_filter.mp hkv).2
  simp [allowedAttr] at h2
  simp [h2]

mutual
theorem cleanNode_ok (h : Html) : listOk (cleanNode h) = true := by
  cases h with
  | text s => simp [cleanNode, listOk, nodeOk]
  | elem tag attrs children =>
    by_cases hA : tag ∈ allowedTags
    · by_cases ha : tag = "a"
      · subst ha
        simp [cleanNode, hA, listOk, nodeOk, cleanList_ok children,
              relOf, forceRel, List.find?_append, relFind_filterAttrs]
      · simp [cleanNode, hA, ha, listOk, nodeOk, cleanList_ok children]
    · by_cases hN : tag ∈ nonTextTags
      · simp [cleanNode, hA, hN, listOk]
      · simp [cleanNode, hA, hN, cleanList_ok children]
termination_by (sizeOf h, 1)

theorem cleanList_ok (t : HtmlList) : listOk (cleanList t) = true := by
  cases t with
  | nil => simp [cleanList, listOk]
  | cons h rest =>
    simp [cleanList, listOk_append, cleanNode_ok h, cleanList_ok rest]
termination_by (sizeOf t, 0)
end

mutual
theorem cleanNode_idem (h : Html) : cleanList (cleanNode h) = cleanNode h := by
  cases h with
  | text s => simp [cleanNode, cleanList, HtmlList.append]
  | elem tag attrs children =>
    by_cases hA : tag ∈ allowedTags
    · by_cases ha : tag = "a"
      · subst ha
        simp [cleanNode, hA, cleanList, HtmlList.append_nil,
              filterAttrs_forceRel, cleanList_idem children]
      · simp [cleanNode, hA, ha, cleanList, HtmlList.append_nil,
              filterAttrs_idem, cleanList_idem children]
    · by_cases hN : tag ∈ nonTextTags
      · simp [cleanNode, hA, hN, cleanList]
      · simp [cleanNode, hA, hN, cleanList_idem children]
termination_by (sizeOf h, 1)

theorem cleanList_idem (t : HtmlList) : cleanList (cleanList t) = cleanList t := by
  cases t with
  | nil => rfl
  | cons h rest =>
    simp [cleanList, cleanList_append, cleanNode_idem h, cleanList_idem rest]
termination_by (sizeOf t, 0)
end
/-! ## Documents and the output sanitizer -/

/-- A product document (`title` is the search target; a `null` price means
"not for sale"). -/
structure ProductRec where
  pid : String
  title : String
  price : Option Int
deriving DecidableEq

/-- A user/customer document (only the fields the embedded endpoints read). -/
structure UserDoc where
  uid : String
  roles : List String
deriving DecidableEq

/-- A stored order document.  Markup-bearing fields are parsed markup;
an absent/null field is `none`. -/
structure OrderDoc where
  oid : String
  orderNumber : Int
  status : String
  totalAmount : Int
  customer : String
  products : List String
  createdAt : Nat
  deliveryAddress : Option HtmlList
  comment : Option HtmlList
  email : Option HtmlList
  phone : Option HtmlList

/-- The response record produced by `sanitizeOrder`. -/
structure OrderOut where
  oid : String
  orderNumber : Int
  status : String
  totalAmount : Int
  customer : String
  products : List String
  createdAt : Nat
  deliveryAddress : HtmlList
  comment : HtmlList
  email : HtmlList
  phone : HtmlList

/-- `cleanHtml(field) || ''`: a missing/null field and an empty sanitizer
result both collapse to the empty string (the empty document). -/
def cleanHtmlField : Option HtmlList → HtmlList
  | none => .nil
  | some d => cleanHtml d

/-- Modelled from the spec: on its `comment` line, `sanitizeOrder` passes
the whole record — not `orderObject.comment` — to the markup sanitizer,
which is specified only on strings; a record handed to a string consumer
is read through JavaScript's generic object stringification, the fixed
text `[object Object]`. -/
def orderObjectAsMarkup : HtmlList := .cons (.text "[object Object]") .nil

/-- `sanitizeOrder` (sanitizeOrder.ts): re-clean the markup-bearing fields
of the record before serialization.  Note the `comment` line. -/
def sanitizeOrder (o : OrderDoc) : OrderOut :=
  ⟨o.oid, o.orderNumber, o.status, o.totalAmount, o.customer, o.products, o.createdAt,
   cleanHtmlField o.deliveryAddress,
   cleanHtml orderObjectAsMarkup,
   cleanHtmlField o.email,
   cleanHtmlField o.phone⟩

/-! ## Single-record fetches (visibility gate) -/

/-- `Types.ObjectId.isValid` on the 24-hex-character string form. -/
def isHexChar (c : Char) : Bool :=
  c.isDigit || (97 ≤ c.toNat && c.toNat ≤ 102) || (65 ≤ c.toNat && c.toNat ≤ 70)

def isValidObjectId (s : String) : Bool :=
  s.data.length == 24 && s.data.all (fun c => isHexChar c)

/-- The error kinds an endpoint can surface. -/
inductive ApiErr where
  | badRequest
  | notFound
  | typeError
deriving DecidableEq

/-- GET /orders/:orderNumber for the current user
(`getOrderCurrentUserByNumber`, part_002 first file, lines 360-395):
a non-numeric order number is BadRequest, a missing order is NotFound,
and an order whose `customer` differs from the requester is also
reported as NotFound (never Forbidden). -/
def getOrderCurrentUserByNumber (ordersDb : List OrderDoc) (userId : String)
    (orderNumber : Option Int) : Except ApiErr OrderOut :=
  match orderNumber with
  | none => .error .badRequest
  | some n =>
    match ordersDb.find? (fun o => o.orderNumber == n) with
    | none => .error .notFound
    | some o =>
      if o.customer ≠ userId then .error .notFound
      else .ok (sanitizeOrder o)

/-- GET /customers/:id (`getCustomerById`, part_000 lines 185-215):
params go through `sanitizeQueryParams` (a `$`-prefixed value throws
BadRequest, other values are escaped); an invalid ObjectId and a foreign
id are both reported as NotFound; the lookup then uses the raw path id. -/
def getCustomerById (usersDb : List UserDoc) (requester : UserDoc)
    (idParam : String) : Except ApiErr UserDoc :=
  if startsWithDollar idParam then .error .badRequest
  else
    let id := sanitizeSearch idParam
    if ¬ isValidObjectId id then .error .notFound
    else if ¬ requester.roles.contains "admin" ∧ requester.uid ≠ id then .error .notFound
    else
      match usersDb.find? (fun u => u.uid == idParam) with
      | none => .error .notFound
      | some u => .ok u

/-! ## The order listing -/

/-- The typed query parameters the order listing reads. -/
structure QueryParams where
  page : Option Int
  limit : Option Int
  search : Option String
  status : Option String
  totalAmountFrom : Option Int
  totalAmountTo : Option Int
  orderDateFrom : Option Nat
  orderDateTo : Option Nat

/-- The same request with the status/amount/date filters removed. -/
def clearRangeFilters (q : QueryParams) : QueryParams :=
  ⟨q.page, q.limit, q.search, none, none, none, none, none⟩

/-- `populate('products')` / the `$lookup` on products: resolve an order's
product references against the products collection. -/
def resolvedProducts (productsDb : List ProductRec) (o : OrderDoc) : List ProductRec :=
  productsDb.filter (fun p => o.products.contains p.pid)

/-- `Product.find({ title: searchRegex })` then `.map(p => p._id)`;
`matchT` is the compiled search-regex predicate on titles. -/
def titleMatchIds (productsDb : List ProductRec) (matchT : String → Bool) : List String :=
  (productsDb.filter (fun p => matchT p.title)).map (fun p => p.pid)

/-- The non-admin in-memory search filter (part_002 first file, lines
45-52): keep an order whose resolved products intersect the title-match
id set, or whose number equals the numeric parse of the term
(`num = none` models `NaN`). -/
def nonAdminSearchKeep (productsDb : List ProductRec) (matchT : String → Bool)
    (num : Option Int) (o : OrderDoc) : Bool :=
  (resolvedProducts productsDb o).any
      (fun p => (titleMatchIds productsDb matchT).contains p.pid)
  || (match num with | some n => o.orderNumber == n | none => false)

/-- The admin aggregation search (part_002 first file, lines 162-201):
after `$lookup` + `$unwind` on customer and on products, an order
survives the `$or` `$match` iff its customer resolves, it has at least
one resolved product row, and some row matches the title regex or the
order number matches. -/
def adminSearchKeep (usersDb : List UserDoc) (productsDb : List ProductRec)
    (matchT : String → Bool) (num : Option Int) (o : OrderDoc) : Bool :=
  usersDb.any (fun u => u.uid == o.customer) &&
  (let rp := resolvedProducts productsDb o
   !rp.isEmpty &&
   (rp.any (fun p => matchT p.title) ||
    (match num with | some n => o.orderNumber == n | none => false)))

/-- The pagination envelope of the order listing. -/
structure PageInfo where
  totalOrders : Int
  totalPages : Int
  currentPage : Int
  pageSize : Int
deriving DecidableEq

structure OrdersList where
  orders : List OrderOut
  pagination : PageInfo

/-- The non-admin branch of GET /orders (part_002 first file, lines
26-94).  `matchT` is the predicate of the regex built on line 31 from the
doubly-escaped term, `num` the numeric parse of that term.  A request
without a `search` parameter crashes on line 30 (`undefined.replace`),
surfacing as an unclassified error; an empty search string skips the
search branch.  The status/amount/date parameters are never read here. -/
def getOrdersNonAdmin (matchT : String → Bool) (num : Option Int)
    (ordersDb : List OrderDoc) (productsDb : List ProductRec)
    (uid : String) (q : QueryParams) : Except ApiErr OrdersList :=
  match q.search with
  | none => .error .typeError
  | some term =>
    let page := pageEff q.page
    let limit := limitEff q.limit
    let ownOrders := ordersDb.filter (fun o => o.customer == uid)
    if term ≠ "" then
      let filtered := ownOrders.filter (nonAdminSearchKeep productsDb matchT num)
      let total : Int := (filtered.length : Int)
      let items := jsSlice filtered ((page - 1) * limit) (page * limit)
      .ok ⟨items.map sanitizeOrder, ⟨total, ceilQ total limit, page, limit⟩⟩
    else
      let total : Int := (ownOrders.length : Int)
      let items := mongoSkipLimit ownOrders ((page - 1) * limit) limit
      .ok ⟨items.map sanitizeOrder, ⟨total, ceilQ total limit, page, limit⟩⟩

/-! ## Date-range construction -/

def msPerDay : Nat := 86400000

/-- `new Date(d)` of a date-only parameter: midnight of day `d`. -/
def dayStart (d : Nat) : Nat := d * msPerDay

/-- `endOfDay.setHours(23, 59, 59, 999)`: 23:59:59.999 of day `d`. -/
def endOfDay (d : Nat) : Nat := d * msPerDay + (msPerDay - 1)

/-- The `createdAt` range the admin order listing builds (part_002 first
file, lines 144-157): `$gte: new Date(from)` and `$lte: new Date(to)` —
the `To` bound is the parsed instant itself, with no end-of-day shift. -/
def ordersCreatedAtMatch (dateFrom dateTo : Option Nat) (t : Nat) : Bool :=
  (match dateFrom with | some d => decide (dayStart d ≤ t) | none => true) &&
  (match dateTo with | some d => decide (t ≤ dayStart d) | none => true)

/-- The registration/last-order date ranges of the customer listing
(part_000 lines 61-91): the `To` side is moved to 23:59:59.999 before
being used as an inclusive `$lte` bound. -/
def customersDateMatch (dateFrom dateTo : Option Nat) (t : Nat) : Bool :=
  (match dateFrom with | some d => decide (dayStart d ≤ t) | none => true) &&
  (match dateTo with | some d => decide (t ≤ endOfDay d) | none => true)

def validStatuses : List String := ["new", "completed", "cancelled", "delivering"]

/-- A `Date` value as the parameter sanitizers see it: an object with no
own enumerable entries. -/
def dateJVal : JVal := .obj .nil

/-- The `status` / `totalAmount` / `createdAt` pieces of the admin order
listing's filter object. -/
def statusSeg (q : QueryParams) : JFields :=
  match q.status with
  | some s => if validStatuses.contains s then .cons "status" (.str s) .nil else .nil
  | none => .nil

def amountSeg (q : QueryParams) : JFields :=
  match q.totalAmountFrom, q.totalAmountTo with
  | none, none => .nil
  | lo, hi =>
    .cons "totalAmount"
      (.obj ((match lo with
              | some n => JFields.cons "$gte" (.num n) .nil
              | none => .nil).append
             (match hi with
              | some n => JFields.cons "$lte" (.num n) .nil
              | none => .nil))) .nil

def dateSeg (q : QueryParams) : JFields :=
  match q.orderDateFrom, q.orderDateTo with
  | none, none => .nil
  | lo, hi =>
    .cons "createdAt"
      (.obj ((match lo with
              | some _ => JFields.cons "$gte" dateJVal .nil
              | none => .nil).append
             (match hi with
              | some _ => JFields.cons "$lte" dateJVal .nil
              | none => .nil))) .nil

/-- The filter object the admin order listing constructs (part_002 first
file, lines 119-157) and then hands to `sanitizeAggregationFilters`
(line 160): `status` equality (only for members of the status
enumeration), and `totalAmount` / `createdAt` range objects keyed by
`$gte` / `$lte`, in insertion order. -/
def buildOrderFilters (q : QueryParams) : JFields :=
  ((statusSeg q).append (amountSeg q)).append (dateSeg q)

/-! ## Order creation -/

/-- The `validItems.forEach` of `createOrder`: resolve each item id with
`products.find`, throwing on a missing product or a `null` price. -/
def basketOf (productsDb : List ProductRec) : List String → Option (List ProductRec)
  | [] => some []
  | id :: rest =>
    match productsDb.find? (fun p => p.pid == id) with
    | none => none
    | some p =>
      if p.price = none then none
      else (basketOf productsDb rest).map (fun b => p :: b)

/-- The claim-relevant outputs of a successfully created order. -/
structure CreatedOrder where
  totalAmount : Int
  products : List String
deriving DecidableEq

/-- POST /order (`createOrder`, part_001 lines 362-426, identical to the
validation chain of part_002's second file and of part_002's first file
after its body-cleaning loop): `items` must be a non-empty array of
well-formed ObjectIds, every id must resolve to a product with a
non-null price, and the submitted total must equal the basket sum under
strict equality; on success the order's `totalAmount` is that total. -/
def createOrder (productsDb : List ProductRec) (items : Option (List String))
    (total : Int) : Except ApiErr CreatedOrder :=
  match items with
  | none => .error .badRequest
  | some its =>
    if its.isEmpty then .error .badRequest
    else
      let validItems := its.filter (fun id => isValidObjectId id)
      if validItems.length ≠ its.length then .error .badRequest
      else
        match basketOf productsDb validItems with
        | none => .error .badRequest
        | some basket =>
          let totalBasket := basket.foldl (fun a c => a + c.price.getD 0) 0
          if totalBasket ≠ total then .error .badRequest
          else .ok ⟨total, validItems⟩

/-- The sum of the referenced products' prices (an unresolved reference or
a null price contributes 0 — those cases are excluded separately). -/
def refSum (productsDb : List ProductRec) (its : List String) : Int :=
  its.foldl
    (fun a id =>
      a + (((productsDb.find? (fun p => p.pid == id)).bind (fun p => p.price)).getD 0)) 0

/-- The item references a nonexistent product or one with a null price. -/
def badItemRef (productsDb : List ProductRec) (id : String) : Bool :=
  match productsDb.find? (fun p => p.pid == id) with
  | none => true
  | some p => p.price.isNone

/-! ## Claim theorems -/

/-- C1 (amended): the Aggregation Sanitizer raises BadRequest exactly when
some key or some string value at some depth begins with the operator
sentinel `$`; the Input Sanitizer raises BadRequest exactly when some
string value at some depth begins with `$` — it never inspects keys. -/
theorem sanitizers_badRequest_iff (fs : JFields) :
    (isErr (sanitizeAggregationFilters fs) = true ↔ aggBadFields fs = true) ∧
    (isErr (sanitizeQueryParams fs) = true ↔ sqpBadFields fs = true) := by
  rw [sanitizeAggregationFilters_err fs, sanitizeQueryParams_err fs]
  exact ⟨Iff.rfl, Iff.rfl⟩

/-- C1 counterexample: a mapping whose key `$where` begins with the
operator sentinel passes `sanitizeQueryParams` without any error, so the
Input Sanitizer does not raise on `$`-prefixed keys. -/
theorem sanitizeQueryParams_dollarKey_ok :
    startsWithDollar "$where" = true ∧
    sanitizeQueryParams (.cons "$where" (.num 1) .nil)
      = .ok (.cons "$where" (.num 1) .nil) :=
  ⟨by decide, by rfl⟩

/-- C6: on the spec-modelled markup sanitizer, `cleanHtml` is idempotent,
every tag of its output is in the allow-list `p`/`a`, and every anchor in
the output carries the forced `rel` value. -/
theorem cleanHtml_idem_allowlist (d : HtmlList) :
    cleanHtml (cleanHtml d) = cleanHtml d ∧ listOk (cleanHtml d) = true :=
  ⟨cleanList_idem d, cleanList_ok d⟩

/-- The first text node of a document (a discriminator for inequality). -/
def headText : HtmlList → String
  | .cons (.text s) _ => s
  | _ => ""

/-- An order stored with markup in its address and comment fields. -/
def o5bug : OrderDoc :=
  ⟨"o1", 1, "new", 100, "u1", [], 0,
   some (.cons (.elem "script" [] (.cons (.text "x") .nil))
          (.cons (.text "123 Main St") .nil)),
   some (.cons (.elem "script" [] (.cons (.text "x") .nil))
          (.cons (.text "hello") .nil)),
   none, none⟩

/-- C5: the address comes back markup-stripped as claimed, but the comment
field of the response is the sanitizer applied to the whole record, not
to the stored comment — so the stored comment's cleaned value
(`hello`) never reaches the response. -/
theorem sanitizeOrder_comment_bug :
    (sanitizeOrder o5bug).deliveryAddress = .cons (.text "123 Main St") .nil ∧
    cleanHtmlField o5bug.comment = .cons (.text "hello") .nil ∧
    (sanitizeOrder o5bug).comment = .cons (.text "[object Object]") .nil ∧
    (sanitizeOrder o5bug).comment ≠ cleanHtmlField o5bug.comment :=
  ⟨rfl, rfl, rfl, fun h => absurd (congrArg headText h) (by decide)⟩

/-- C8: `sanitizeSearch` escapes the dot and then doubles the backslash it
just inserted, so the result `\\.` is an escaped backslash followed by a
bare `.` metacharacter — it does not denote the literal string `.`,
while the single-escaped `\.` does. -/
theorem sanitizeSearch_double_escape_bug :
    sanitizeSearch "." = "\\\\." ∧
    parseLiteralRegex (sanitizeSearch ".").data = none ∧
    parseLiteralRegex "\\.".data = some ['.'] :=
  ⟨by decide, by decide, by decide⟩

/-- C2: a non-admin fetching an existing order owned by someone else gets
NotFound (never Forbidden, never the order), and a non-admin fetching
another user's customer record by a well-formed id gets NotFound. -/
theorem foreign_record_notFound :
    (∀ (ordersDb : List OrderDoc) (userId : String) (n : Int) (o : OrderDoc),
      ordersDb.find? (fun o2 => o2.orderNumber == n) = some o →
      o.customer ≠ userId →
      getOrderCurrentUserByNumber ordersDb userId (some n) = .error .notFound) ∧
    (∀ (usersDb : List UserDoc) (requester : UserDoc) (idParam : String) (u : UserDoc),
      usersDb.find? (fun u2 => u2.uid == idParam) = some u →
      requester.roles.contains "admin" = false →
      startsWithDollar idParam = false →
      isValidObjectId (sanitizeSearch idParam) = true →
      sanitizeSearch idParam ≠ requester.uid →
      getCustomerById usersDb requester idParam = .error .notFound) := by
  constructor
  · intro ordersDb userId n o hFind hOwn
    simp [getOrderCurrentUserByNumber, hFind, hOwn]
  · intro usersDb requester idParam u hFind hRole hDollar hValid hOwn
    have hOwn2 : requester.uid ≠ sanitizeSearch idParam := fun h => hOwn h.symm
    have hRole2 : "admin" ∉ requester.roles := by simpa using hRole
    simp [getCustomerById, hDollar, hValid, hRole2, hOwn2]

def o2w : OrderDoc := ⟨"o1", 5, "new", 100, "u2", [], 0, none, none, none, none⟩
def u2w : UserDoc := ⟨"aaaaaaaaaaaaaaaaaaaaaaaa", ["customer"]⟩
def req2w : UserDoc := ⟨"bbbbbbbbbbbbbbbbbbbbbbbb", ["customer"]⟩

/-- C2 witness: concrete foreign order and foreign customer fetches. -/
theorem foreign_record_notFound_witness :
    getOrderCurrentUserByNumber [o2w] "u1" (some 5) = .error .notFound ∧
    getCustomerById [u2w] req2w "aaaaaaaaaaaaaaaaaaaaaaaa" = .error .notFound :=
  ⟨foreign_record_notFound.1 [o2w] "u1" 5 o2w (by rfl) (by decide),
   foreign_record_notFound.2 [u2w] req2w "aaaaaaaaaaaaaaaaaaaaaaaa" u2w
     (by rfl) (by rfl) (by decide) (by decide) (by decide)⟩

theorem mem_jsSlice {α : Type} {x : α} {l : List α} {a b : Int}
    (h : x ∈ jsSlice l a b) : x ∈ l := by
  unfold jsSlice at h
  exact List.mem_of_mem_drop (List.mem_of_mem_take h)

theorem mem_mongoSkipLimit {α : Type} {x : α} {l : List α} {a b : Int}
    (h : x ∈ mongoSkipLimit l a b) : x ∈ l := by
  unfold mongoSkipLimit at h
  exact List.mem_of_mem_drop (List.mem_of_mem_take h)

/-- C3 (amended): every order a non-admin listing request returns belongs
to the requester, and the status/amount/date filter parameters are
ignored on this path — the response is unchanged when they are removed. -/
theorem nonAdmin_orders_scoped_filters_ignored
    (matchT : String → Bool) (num : Option Int) (ordersDb : List OrderDoc)
    (productsDb : List ProductRec) (uid : String) (q : QueryParams)
    (term : String) (r : OrdersList)
    (hS : q.search = some term)
    (hOk : getOrdersNonAdmin matchT num ordersDb productsDb uid q = .ok r) :
    (∀ o ∈ r.orders, o.customer = uid) ∧
    getOrdersNonAdmin matchT num ordersDb productsDb uid q
      = getOrdersNonAdmin matchT num ordersDb productsDb uid (clearRangeFilters q) := by
  constructor
  · intro o ho
    unfold getOrdersNonAdmin at hOk
    rw [hS] at hOk
    by_cases hT : term = ""
    · subst hT
      simp only [ne_eq, not_true_eq_false, if_false, Except.ok.injEq] at hOk
      subst hOk
      simp only [List.mem_map] at ho
      obtain ⟨o2, h2, rfl⟩ := ho
      have h3 := mem_mongoSkipLimit h2
      have h4 := (List.mem_filter.mp h3).2
      have h5 : o2.customer = uid := by simpa using h4
      simpa [sanitizeOrder] using h5
    · simp only [ne_eq, hT, not_false_eq_true, if_true, Except.ok.injEq] at hOk
      subst hOk
      simp only [List.mem_map] at ho
      obtain ⟨o2, h2, rfl⟩ := ho
      have h3 := mem_jsSlice h2
      have h4 := (List.mem_filter.mp h3).1
      have h5 := (List.mem_filter.mp h4).2
      have h6 : o2.customer = uid := by simpa using h5
      simpa [sanitizeOrder] using h6
  · rfl

def o3cex : OrderDoc := ⟨"o1", 1, "new", 100, "u1", [], 0, none, none, none, none⟩
def q3cex : QueryParams := ⟨none, none, some "", some "completed", none, none, none, none⟩

/-- C3 counterexample: a non-admin request that filters on
`status=completed` still receives the requester's `new` order — the
status filter does not apply on the non-admin path. -/
theorem nonAdmin_orders_status_filter_ignored :
    q3cex.status = some "completed" ∧
    o3cex.status = "new" ∧
    getOrdersNonAdmin (fun _ => false) none [o3cex] [] "u1" q3cex
      = .ok ⟨[sanitizeOrder o3cex], ⟨1, 1, 1, 10⟩⟩ :=
  ⟨rfl, rfl, rfl⟩

/-- C3 witness: the amended theorem applied at the same concrete input. -/
theorem nonAdmin_orders_scoped_filters_ignored_witness :
    (∀ o ∈ (OrdersList.mk [sanitizeOrder o3cex] ⟨1, 1, 1, 10⟩).orders,
        o.customer = "u1") ∧
    getOrdersNonAdmin (fun _ => false) none [o3cex] [] "u1" q3cex
      = getOrdersNonAdmin (fun _ => false) none [o3cex] [] "u1" (clearRangeFilters q3cex) :=
  nonAdmin_orders_scoped_filters_ignored (fun _ => false) none [o3cex] [] "u1" q3cex
    "" ⟨[sanitizeOrder o3cex], ⟨1, 1, 1, 10⟩⟩ rfl rfl

/-- C4 (amended): the effective page is always ≥ 1; the effective page
size is always ≤ 10 and never 0, defaults to 10 when the limit is absent,
zero or non-numeric, lies in `[1, 10]` for every positive requested
limit, but equals the raw negative value when a negative limit is
supplied; and the listing envelope reports exactly these clamped values,
with `totalPages = ceil(totalItems / pageSize)` computed on the
post-filter, pre-slice count. -/
theorem pagination_clamp_envelope (p l : Option Int) :
    1 ≤ pageEff p ∧
    limitEff l ≤ 10 ∧
    limitEff l ≠ 0 ∧
    limitEff none = 10 ∧
    limitEff (some 0) = 10 ∧
    (∀ n : Int, l = some n → 1 ≤ n → 1 ≤ limitEff l ∧ limitEff l ≤ 10) ∧
    (∀ n : Int, l = some n → n < 0 → limitEff l = n) ∧
    (∀ (matchT : String → Bool) (num : Option Int) (ordersDb : List OrderDoc)
       (productsDb : List ProductRec) (uid : String) (q : QueryParams)
       (term : String) (r : OrdersList),
       q.search = some term →
       getOrdersNonAdmin matchT num ordersDb productsDb uid q = .ok r →
       r.pagination.currentPage = pageEff q.page ∧
       r.pagination.pageSize = limitEff q.limit ∧
       r.pagination.totalPages = ceilQ r.pagination.totalOrders (limitEff q.limit) ∧
       (term ≠ "" →
          r.pagination.totalOrders =
            (((ordersDb.filter (fun o => o.customer == uid)).filter
                (nonAdminSearchKeep productsDb matchT num)).length : Int)) ∧
       (term = "" →
          r.pagination.totalOrders =
            ((ordersDb.filter (fun o => o.customer == uid)).length : Int))) := by
  refine ⟨?_, ?_, ?_, rfl, rfl, ?_, ?_, ?_⟩
  · exact le_max_left 1 _
  · exact min_le_left 10 _
  · cases l with
    | none => decide
    | some n =>
      rcases eq_or_ne n 0 with rfl | hn
      · decide
      · simp [limitEff, jsOrElse, hn]
        omega
  · intro n hl hn
    subst hl
    rcases eq_or_ne n 0 with rfl | hn0
    · omega
    · constructor
      · simp [limitEff, jsOrElse, hn0]; omega
      · exact min_le_left 10 _
  · intro n hl hn
    subst hl
    have hn0 : n ≠ 0 := by omega
    simp [limitEff, jsOrElse, hn0]
    omega
  · intro matchT num ordersDb productsDb uid q term r hS hOk
    unfold getOrdersNonAdmin at hOk
    rw [hS] at hOk
    by_cases hT : term = ""
    · subst hT
      simp only [ne_eq, not_true_eq_false, if_false, Except.ok.injEq] at hOk
      subst hOk
      exact ⟨rfl, rfl, rfl, fun h => absurd rfl h, fun _ => rfl⟩
    · simp only [ne_eq, hT, not_false_eq_true, if_true, Except.ok.injEq] at hOk
      subst hOk
      exact ⟨rfl, rfl, rfl, fun _ => rfl, fun h => absurd h hT⟩

def o4w : OrderDoc := ⟨"o1", 1, "new", 100, "u1", [], 0, none, none, none, none⟩
def q4w : QueryParams := ⟨some 2, some 99, some "", none, none, none, none, none⟩

/-- C4 witness: page 2 with an oversized limit of 99 produces a clamped
envelope on a one-order data set. -/
theorem pagination_clamp_envelope_witness :
    1 ≤ pageEff (some (-3)) ∧
    (OrdersList.mk [] ⟨1, 1, 2, 10⟩).pagination.pageSize = limitEff (some 99) :=
  ⟨(pagination_clamp_envelope (some (-3)) (some 99)).1,
   (((pagination_clamp_envelope (some (-3)) (some 99)).2.2.2.2.2.2.2
      (fun _ => false) none [o4w] [] "u1" q4w "" ⟨[], ⟨1, 1, 2, 10⟩⟩ rfl rfl)).2.1⟩

/-- C4 counterexample: a requested limit of −5 escapes the clamp — the
effective page size is −5, outside `[1, 10]`. -/
theorem pagination_negative_limit_escapes_clamp :
    limitEff (some (-5)) = -5 ∧ ¬(1 ≤ limitEff (some (-5)) ∧ limitEff (some (-5)) ≤ 10) := by
  decide

theorem aggBadFields_append : ∀ (a b : JFields),
    aggBadFields (a.append b) = (aggBadFields a || aggBadFields b)
  | .nil, b => by simp [JFields.append, aggBadFields]
  | .cons k v r, b => by
    simp [JFields.append, aggBadFields, aggBadFields_append r b, Bool.or_assoc]

/-- C7 (amended): in the customer listing, a `To` date bound is shifted to
23:59:59.999 of its day and applied inclusively, so any instant of day
`d` (in particular 23:59:59.500) is included; in the order listing, the
built `$lte` bound is midnight of day `d`, so an order matches it only up
to the very start of the day — and in fact supplying `orderDateTo` at all
makes the Aggregation Sanitizer reject the built filter (its `$lte` key)
with BadRequest before any query runs. -/
theorem dateTo_bound_semantics (d t : Nat) (q : QueryParams) (e : Nat) :
    (t ≤ endOfDay d → customersDateMatch none (some d) t = true) ∧
    (ordersCreatedAtMatch none (some d) t = true ↔ t ≤ dayStart d) ∧
    (q.orderDateTo = some e →
      isErr (sanitizeAggregationFilters (buildOrderFilters q)) = true) := by
  refine ⟨?_, ?_, ?_⟩
  · intro h
    simp [customersDateMatch, h]
  · simp [ordersCreatedAtMatch]
  · intro hTo
    rw [sanitizeAggregationFilters_err]
    unfold buildOrderFilters
    rw [aggBadFields_append, aggBadFields_append]
    have hd : aggBadFields (dateSeg q) = true := by
      unfold dateSeg
      rw [hTo]
      have hlte : startsWithDollar "$lte" = true := by decide
      cases q.orderDateFrom <;>
        simp [aggBadFields, aggBadVal, JFields.append, hlte]
    simp [hd]

def q7w : QueryParams := ⟨none, none, some "", none, none, none, none, some 0⟩

/-- C7 witness: 23:59:59.500 of day 0 passes the customer-listing bound
`To = day 0`, and the order listing rejects `orderDateTo = day 0`. -/
theorem dateTo_bound_semantics_witness :
    customersDateMatch none (some 0) 86399500 = true ∧
    isErr (sanitizeAggregationFilters (buildOrderFilters q7w)) = true :=
  ⟨(dateTo_bound_semantics 0 86399500 q7w 0).1 (by decide),
   (dateTo_bound_semantics 0 86399500 q7w 0).2.2 rfl⟩

/-- C7 counterexample: an order created at 23:59:59.500 of day 0 does not
match the order listing's built bound `orderDateTo = day 0` (which is
midnight), while the customer listing's end-of-day bound includes the
same instant; besides, the built order filter is itself rejected. -/
theorem orders_dateTo_excludes_end_of_day :
    ordersCreatedAtMatch none (some 0) 86399500 = false ∧
    customersDateMatch none (some 0) 86399500 = true ∧
    isErr (sanitizeAggregationFilters (buildOrderFilters q7w)) = true := by
  refine ⟨by decide, by decide, by decide⟩

theorem any_congr_mem {α : Type} (l : List α) (f g : α → Bool)
    (h : ∀ x ∈ l, f x = g x) : l.any f = l.any g := by
  induction l with
  | nil => rfl
  | cons x xs ih =>
    simp only [List.any_cons, h x (List.mem_cons_self x xs),
      ih (fun y hy => h y (List.mem_cons_of_mem x hy))]

theorem titleMatchIds_contains (productsDb : List ProductRec) (matchT : String → Bool)
    (hnd : (productsDb.map (fun p => p.pid)).Nodup)
    (p : ProductRec) (hp : p ∈ productsDb) :
    (titleMatchIds productsDb matchT).contains p.pid = matchT p.title := by
  by_cases hm : matchT p.title = true
  · have hmem : p.pid ∈ titleMatchIds productsDb matchT :=
      List.mem_map.mpr ⟨p, List.mem_filter.mpr ⟨hp, hm⟩, rfl⟩
    simp [hm, hmem]
  · have hm2 : matchT p.title = false := by simpa using hm
    have hnmem : p.pid ∉ titleMatchIds productsDb matchT := by
      intro hmem
      obtain ⟨p2, hp2, hpq⟩ := List.mem_map.mp hmem
      have hp2db := (List.mem_filter.mp hp2).1
      have hp2m := (List.mem_filter.mp hp2).2
      have : p2 = p := List.inj_on_of_nodup_map hnd hp2db hp hpq
      rw [this] at hp2m
      rw [hm2] at hp2m
      exact Bool.false_ne_true hp2m
    simp [hm2, hnmem]

/-- C9 (amended): restricted to orders whose customer reference resolves
and whose product references resolve to at least one product (with the
products collection keyed by distinct ids, as a document store
guarantees), the admin aggregation search and the non-admin in-memory
search keep exactly the same orders; orders with no resolved products are
dropped by the admin `$unwind` stage even when the order number matches. -/
theorem search_paths_agree_on_resolvable
    (usersDb : List UserDoc) (productsDb : List ProductRec)
    (matchT : String → Bool) (num : Option Int) (o : OrderDoc)
    (hCust : usersDb.any (fun u => u.uid == o.customer) = true)
    (hnd : (productsDb.map (fun p => p.pid)).Nodup)
    (hProd : (resolvedProducts productsDb o).isEmpty = false) :
    adminSearchKeep usersDb productsDb matchT num o
      = nonAdminSearchKeep productsDb matchT num o := by
  have hAny : (resolvedProducts productsDb o).any
        (fun p => (titleMatchIds productsDb matchT).contains p.pid)
      = (resolvedProducts productsDb o).any (fun p => matchT p.title) := by
    apply any_congr_mem
    intro p hp
    exact titleMatchIds_contains productsDb matchT hnd p (List.mem_filter.mp hp).1
  unfold adminSearchKeep nonAdminSearchKeep
  simp only [hCust, hProd, hAny, Bool.not_false, Bool.true_and]

def u9 : UserDoc := ⟨"u1", ["customer"]⟩
def p9 : ProductRec := ⟨"p1", "Widget", some 5⟩
def o9 : OrderDoc := ⟨"o2", 7, "new", 5, "u1", ["p1"], 0, none, none, none, none⟩
def o9empty : OrderDoc := ⟨"o1", 42, "new", 100, "u1", [], 0, none, none, none, none⟩

/-- C9 witness: with one resolvable product the two search paths agree. -/
theorem search_paths_agree_on_resolvable_witness :
    adminSearchKeep [u9] [p9] (fun t => t == "Widget") none o9
      = nonAdminSearchKeep [p9] (fun t => t == "Widget") none o9 :=
  search_paths_agree_on_resolvable [u9] [p9] (fun t => t == "Widget") none o9
    (by decide) (by decide) (by decide)

/-- C9 counterexample: an order with no products, searched by its own
order number, is returned by the non-admin in-memory path but dropped by
the admin pipeline's `$unwind` stage — the two result sets differ. -/
theorem search_paths_disagree_on_empty_products :
    nonAdminSearchKeep [] (fun _ => false) (some 42) o9empty = true ∧
    adminSearchKeep [u9] [] (fun _ => false) (some 42) o9empty = false ∧
    o9empty.customer = "u1" := by
  refine ⟨rfl, rfl, rfl⟩

theorem basketOf_eq_none_iff (productsDb : List ProductRec) :
    ∀ its : List String, basketOf productsDb its = none
      ↔ ∃ id ∈ its, badItemRef productsDb id = true
  | [] => by simp [basketOf]
  | id :: rest => by
    simp only [basketOf]
    cases hF : productsDb.find? (fun p => p.pid == id) with
    | none =>
      have hid : badItemRef productsDb id = true := by simp [badItemRef, hF]
      simp only [true_iff]
      exact ⟨id, List.mem_cons_self id rest, hid⟩
    | some p =>
      have ih := basketOf_eq_none_iff productsDb rest
      by_cases hP : p.price = none
      · have hid : badItemRef productsDb id = true := by
          simp [badItemRef, hF, hP]
        simp only [hP, if_true, true_iff]
        exact ⟨id, List.mem_cons_self id rest, hid⟩
      · have hid : badItemRef productsDb id = false := by
          cases hPP : p.price with
          | none => exact absurd hPP hP
          | some v => simp [badItemRef, hF, hPP]
        cases hB : basketOf productsDb rest with
        | none =>
          obtain ⟨id2, h2, h3⟩ := ih.mp hB
          simp only [hP, if_false, hB, Option.map_none', true_iff]
          exact ⟨id2, List.mem_cons_of_mem id h2, h3⟩
        | some b =>
          have hnotrest : ¬ ∃ id2 ∈ rest, badItemRef productsDb id2 = true := by
            intro hex
            rw [ih.mpr hex] at hB
            exact Option.noConfusion hB
          simp only [hP, if_false, hB, Option.map_some']
          refine ⟨fun hcontr => Option.noConfusion hcontr, fun hex => ?_⟩
          exfalso
          obtain ⟨x, hx, hbad⟩ := hex
          rcases List.mem_cons.mp hx with rfl | hx2
          · rw [hid] at hbad; exact Bool.false_ne_true hbad
          · exact hnotrest ⟨x, hx2, hbad⟩

theorem basketOf_sum (productsDb : List ProductRec) :
    ∀ (its : List String) (b : List ProductRec) (a : Int),
      basketOf productsDb its = some b →
      b.foldl (fun acc c => acc + c.price.getD 0) a
        = its.foldl
            (fun acc id =>
              acc + (((productsDb.find? (fun p => p.pid == id)).bind
                        (fun p => p.price)).getD 0)) a
  | [], b, a, h => by
    simp [basketOf] at h
    rw [h]
    simp
  | id :: rest, b, a, h => by
    simp only [basketOf] at h
    cases hF : productsDb.find? (fun p => p.pid == id) with
    | none => rw [hF] at h; exact absurd h (by simp)
    | some p =>
      rw [hF] at h
      by_cases hP : p.price = none
      · simp [hP] at h
      · simp only [hP, if_false, Option.map_eq_some'] at h
        obtain ⟨b2, hb2, rfl⟩ := h
        simp only [List.foldl_cons, hF, Option.some_bind]
        exact basketOf_sum productsDb rest b2 (a + p.price.getD 0) hb2

/-- C10: order creation fails with BadRequest exactly when the items list
is missing/empty, some id is malformed, some item references a missing or
null-price product, or the submitted total differs from the sum of the
referenced products' prices; otherwise it succeeds and the created
order's `totalAmount` equals that sum. -/
theorem createOrder_validation (productsDb : List ProductRec)
    (items : Option (List String)) (total : Int) :
    (isErr (createOrder productsDb items total) = true ↔
      (items = none ∨ ∃ its, items = some its ∧
        (its = [] ∨ (∃ id ∈ its, isValidObjectId id = false) ∨
         (∃ id ∈ its, badItemRef productsDb id = true) ∨
         refSum productsDb its ≠ total))) ∧
    (∀ (its : List String) (out : CreatedOrder), items = some its →
       createOrder productsDb items total = .ok out →
       out.totalAmount = refSum productsDb its ∧ out.totalAmount = total) := by
  cases items with
  | none =>
    refine ⟨by simp [createOrder, isErr], ?_⟩
    intro its out h
    exact absurd h (by simp)
  | some its =>
    by_cases hE : its.isEmpty = true
    · have hNil : its = [] := by simpa using hE
      subst hNil
      have hred : createOrder productsDb (some []) total = .error .badRequest := by
        simp [createOrder]
      refine ⟨?_, ?_⟩
      · rw [hred]
        simp only [isErr, true_iff]
        exact Or.inr ⟨[], rfl, Or.inl rfl⟩
      · intro its2 out h2 hOk
        rw [hred] at hOk
        exact Except.noConfusion hOk
    · have hE2 : its.isEmpty = false := by simpa using hE
      by_cases hAll : ∀ id ∈ its, isValidObjectId id = true
      · have hFilt : its.filter (fun id => isValidObjectId id) = its :=
          List.filter_eq_self.mpr hAll
        cases hB : basketOf productsDb its with
        | none =>
          have hex := (basketOf_eq_none_iff productsDb its).mp hB
          have hred : createOrder productsDb (some its) total = .error .badRequest := by
            simp only [createOrder, hE2, Bool.false_eq_true, if_false, hFilt,
              ne_eq, not_true_eq_false, hB]
          refine ⟨?_, ?_⟩
          · rw [hred]
            simp only [isErr, true_iff]
            exact Or.inr ⟨its, rfl, Or.inr (Or.inr (Or.inl hex))⟩
          · intro its2 out h2 hOk
            rw [hred] at hOk
            exact Except.noConfusion hOk
        | some b =>
          have hSumEq : b.foldl (fun acc c => acc + c.price.getD 0) 0
              = refSum productsDb its := basketOf_sum productsDb its b 0 hB
          have hNoBad : ¬ ∃ id ∈ its, badItemRef productsDb id = true := by
            intro hex
            rw [(basketOf_eq_none_iff productsDb its).mpr hex] at hB
            exact Option.noConfusion hB
          by_cases hSum : b.foldl (fun acc c => acc + c.price.getD 0) 0 ≠ total
          · have hred : createOrder productsDb (some its) total = .error .badRequest := by
              simp only [createOrder, hE2, Bool.false_eq_true, if_false, hFilt,
                ne_eq, not_true_eq_false, hB]
              rw [if_pos hSum]
            refine ⟨?_, ?_⟩
            · rw [hred]
              simp only [isErr, true_iff]
              refine Or.inr ⟨its, rfl, Or.inr (Or.inr (Or.inr ?_))⟩
              rw [← hSumEq]
              exact hSum
            · intro its2 out h2 hOk
              rw [hred] at hOk
              exact Except.noConfusion hOk
          · have hSum2 : b.foldl (fun acc c => acc + c.price.getD 0) 0 = total :=
              not_ne_iff.mp hSum
            have hred : createOrder productsDb (some its) total
                = .ok ⟨total, its⟩ := by
              simp only [createOrder, hE2, Bool.false_eq_true, if_false, hFilt,
                ne_eq, not_true_eq_false, hB]
              rw [if_neg hSum]
            refine ⟨?_, ?_⟩
            · rw [hred]
              simp only [isErr, Bool.false_eq_true, false_iff]
              intro hbad
              rcases hbad with h | ⟨its2, h2, hcase⟩
              · exact Option.noConfusion h
              · have h3 : its = its2 := by simpa using h2
                subst h3
                rcases hcase with h3 | h3 | h3 | h3
                · subst h3; simp at hE2
                · obtain ⟨id, hid, hval⟩ := h3
                  rw [hAll id hid] at hval
                  simp at hval
                · exact hNoBad h3
                · rw [← hSumEq] at h3
                  exact h3 hSum2
            · intro its2 out h2 hOk
              have h3 : its = its2 := by simpa using h2
              subst h3
              rw [hred] at hOk
              rw [← Except.ok.inj hOk]
              refine ⟨?_, rfl⟩
              show total = refSum productsDb its
              rw [← hSumEq]
              exact hSum2.symm
      · have hAll2 := hAll
        push_neg at hAll2
        obtain ⟨id, hid, hval⟩ := hAll2
        have hex : ∃ id2 ∈ its, isValidObjectId id2 = false :=
          ⟨id, hid, by simpa using hval⟩
        have hLen : (its.filter (fun id2 => isValidObjectId id2)).length ≠ its.length := by
          intro hLenEq
          exact hAll (List.filter_length_eq_length.mp hLenEq)
        have hred : createOrder productsDb (some its) total = .error .badRequest := by
          simp only [createOrder, hE2, Bool.false_eq_true, if_false]
          rw [if_pos hLen]
        refine ⟨?_, ?_⟩
        · rw [hred]
          simp only [isErr, true_iff]
          exact Or.inr ⟨its, rfl, Or.inr (Or.inl hex)⟩
        · intro its2 out h2 hOk
          rw [hred] at hOk
          exact Except.noConfusion hOk

def p10a : ProductRec := ⟨"aaaaaaaaaaaaaaaaaaaaaaaa", "Alpha", some 100⟩
def p10b : ProductRec := ⟨"bbbbbbbbbbbbbbbbbbbbbbbb", "Beta", some 200⟩
def items10 : List String := ["aaaaaaaaaaaaaaaaaaaaaaaa", "bbbbbbbbbbbbbbbbbbbbbbbb"]

/-- C10 witness: two valid items whose prices sum to the submitted total
produce an order whose `totalAmount` is that sum. -/
theorem createOrder_validation_witness :
    (CreatedOrder.mk 300 items10).totalAmount = refSum [p10a, p10b] items10 ∧
    (CreatedOrder.mk 300 items10).totalAmount = 300 :=
  (createOrder_validation [p10a, p10b] (some items10) 300).2 items10
    ⟨300, items10⟩ rfl (by rfl)

end BadServer
